import Mathlib

/-!
# Verification of the pepu-bridge-server relay pipeline

Shallow embedding of the cross-chain bridge relayer:

* `src/cache/transaction-cache.service.ts` — the Mongo-backed transaction
  store (`TransactionCacheService`).  The Mongo collection is modelled as a
  `List PendingTransaction`; a database outage (the `catch` branches) is
  modelled by an explicit `outage : Bool` argument.
* `src/contract-listener/contract-listener.service.ts` — event ingestion,
  in-memory deduplication (`processedEventHashes`), historical backfill,
  reconnection backoff, and the relay actions `executeBuyOnL2` /
  `withdrawOnL1`.

The single-threaded Node event loop lets us model each live event handler as
an atomic step: the in-memory membership test and `Set.add` happen
synchronously before the first `await`, so no two handlers for the same hash
can interleave between test and add.
-/

namespace PepuBridge

/-- Transaction status, from the `status` field of `PendingTransaction`
(`'PENDING' | 'CONFIRMED' | 'FAILED'`). -/
inductive TxStatus where
  | PENDING
  | CONFIRMED
  | FAILED
deriving DecidableEq, Repr

/-- The persisted relay record, from the `PendingTransaction` interface in
`transaction-cache.service.ts` (fields mirrored by `transaction.schema.ts`;
`createdAt` is the mongoose timestamp used by the `sort({ createdAt: -1 })`
queries, modelled as a `Nat`). -/
structure PendingTransaction where
  id : String := ""
  chain : String := ""
  type : String := ""
  user : String := ""
  amount : String := ""
  l1Token : Option String := none
  l2Token : Option String := none
  eventHash : Option String := none
  txHash : Option String := none
  status : TxStatus := .PENDING
  timestamp : Nat := 0
  createdAt : Nat := 0
deriving DecidableEq, Repr

/-- The `$or: [{ eventHash: hash }, { txHash: hash }]` Mongo filter used by
`getPendingTxByHash`, `txHashExists` and `updateTxStatusByHash`. -/
def matchesHash (h : String) (r : PendingTransaction) : Bool :=
  r.eventHash = some h || r.txHash = some h

/-- Insert a record into a list kept sorted by `createdAt` descending
(how Mongo serves `sort({ createdAt: -1 })`). -/
def insertByCreatedAtDesc (r : PendingTransaction) :
    List PendingTransaction → List PendingTransaction
  | [] => [r]
  | x :: xs =>
    if x.createdAt ≤ r.createdAt then r :: x :: xs
    else x :: insertByCreatedAtDesc r xs

/-- The store's `sort({ createdAt: -1 })` ordering. -/
def sortByCreatedAtDesc (l : List PendingTransaction) : List PendingTransaction :=
  l.foldr insertByCreatedAtDesc []

/-- `TransactionCacheService.getAll`: `find().sort({ createdAt: -1 }).limit(1000)`,
returning `[]` when the database operation fails. -/
def getAll (store : List PendingTransaction) (outage : Bool) :
    List PendingTransaction :=
  if outage then [] else (sortByCreatedAtDesc store).take 1000

/-- `TransactionCacheService.getPendingTxByHash`: `findOne` on the either-hash
filter, `null` on failure. -/
def getPendingTxByHash (hash : String) (store : List PendingTransaction)
    (outage : Bool) : Option PendingTransaction :=
  if outage then none else store.find? (matchesHash hash)

/-- `TransactionCacheService.txHashExists`: `countDocuments` on the either-hash
filter compared with `> 0`, `false` on failure. -/
def txHashExists (hash : String) (store : List PendingTransaction)
    (outage : Bool) : Bool :=
  if outage then false else store.countP (matchesHash hash) > 0

/-- Mongo `updateOne({$or: …}, {$set: {status}})`: sets `status` on the first
matching document, unconditionally; `modifiedCount` counts documents whose
stored value actually changed. -/
def setStatusFirst (hash : String) (status : TxStatus) :
    List PendingTransaction → List PendingTransaction × Bool
  | [] => ([], false)
  | r :: rs =>
    if matchesHash hash r then
      (({ r with status := status }) :: rs, decide (r.status ≠ status))
    else
      let (rs', changed) := setStatusFirst hash status rs
      (r :: rs', changed)

/-- `TransactionCacheService.updateTxStatusByHash`: the `updateOne` above,
returning `modifiedCount > 0`; on failure the store is untouched and the
method returns `false`. -/
def updateTxStatusByHash (hash : String) (status : TxStatus)
    (store : List PendingTransaction) (outage : Bool) :
    List PendingTransaction × Bool :=
  if outage then (store, false) else setStatusFirst hash status store

/-- Mongo `findOneAndUpdate({ id: tx.id }, tx, { upsert: true })`: replace the
first document with the same `id`, or insert. -/
def upsertById (tx : PendingTransaction) :
    List PendingTransaction → List PendingTransaction
  | [] => [tx]
  | r :: rs => if r.id = tx.id then tx :: rs else r :: upsertById tx rs

/-- `TransactionCacheService.addPendingTx`. -/
def addPendingTx (tx : PendingTransaction) (store : List PendingTransaction) :
    List PendingTransaction :=
  upsertById tx store

/-- JavaScript `String.prototype.toLowerCase` restricted to the ASCII range
(sufficient for hex addresses), written over `String.data` so that it
evaluates inside the kernel. -/
def toLowerCase (s : String) : String :=
  ⟨s.data.map Char.toLower⟩

/-- `TransactionCacheService.getUserPendingTxs`:
`find({ user: userAddress.toLowerCase(), status: 'PENDING' })` sorted by
`createdAt` descending, `[]` on failure.  Note the *stored* `user` field is
compared verbatim against the lowercased input. -/
def getUserPendingTxs (userAddress : String) (store : List PendingTransaction)
    (outage : Bool) : List PendingTransaction :=
  if outage then []
  else sortByCreatedAtDesc (store.filter
    (fun r => decide (r.user = toLowerCase userAddress) &&
              decide (r.status = TxStatus.PENDING)))

/-! ## Event ingestion and relay (`contract-listener.service.ts`) -/

/-- Shape of a raw subscription/backfill event as far as hash extraction is
concerned: the four optional locations probed by
`ContractListenerService.getEventTxHash` (`event.transactionHash`,
`event.log.transactionHash`, `event.receipt.transactionHash`,
`event.transaction.hash`). -/
structure RawEvent where
  transactionHash : Option String := none
  logTransactionHash : Option String := none
  receiptTransactionHash : Option String := none
  transactionDotHash : Option String := none
deriving DecidableEq, Repr

/-- `ContractListenerService.getEventTxHash`: probe the four fields in order,
`undefined` when none is present. -/
def getEventTxHash (e : RawEvent) : Option String :=
  (((e.transactionHash).orElse fun _ => e.logTransactionHash).orElse
    fun _ => e.receiptTransactionHash).orElse fun _ => e.transactionDotHash

/-- Result of `sentTx.wait()` on the destination chain: the receipt arrives
with success, or the wait throws because the transaction reverted. -/
inductive WaitOutcome where
  | success
  | revert
deriving DecidableEq, Repr

/-- Outcome of submitting the destination-chain transaction
(`executeBuy` / `withdraw`): accepted with a hash (followed by a `wait`),
or the `await` throws — classified by whether the error message contains
`"already known"`, the only use the `catch` block makes of the message. -/
inductive SubmitOutcome where
  | accepted (txHash : String) (w : WaitOutcome)
  | rejectedAlreadyKnown
  | rejectedOther
deriving DecidableEq, Repr

/-- Common tail of `executeBuyOnL2` and `withdrawOnL1`, from the submission
`await` onward, as it affects the store:
* submission accepted → `addPendingTx` with `txHash := sentTx.hash`,
  `status := PENDING`; then `await sentTx.wait()`:
  * wait succeeds → `updateTxStatus(sentTx.hash, 'CONFIRMED')`;
  * wait throws (revert) → control jumps to the `catch`, which only logs
    (warn when the message contains "already known", error otherwise) —
    the store is not touched again;
* submission rejected → the `catch` runs before any `addPendingTx`, so the
  store is unchanged whichever branch of the message test fires. -/
def relayLifecycle (store : List PendingTransaction) (pend : PendingTransaction)
    (outcome : SubmitOutcome) (outage : Bool) : List PendingTransaction :=
  match outcome with
  | .accepted t w =>
    let store1 := addPendingTx ({ pend with txHash := some t, status := .PENDING }) store
    match w with
    | .success => (updateTxStatusByHash t .CONFIRMED store1 outage).1
    | .revert => store1
  | .rejectedAlreadyKnown => store
  | .rejectedOther => store

/-- `Set.add` on `processedEventHashes` (a JS `Set<string>`, modelled as a
duplicate-free list). -/
def addProcessedHash (s : List String) (h : String) : List String :=
  if h ∈ s then s else h :: s

/-- One live arrival at a streaming handler (`l1Contract.on('AssetsBuy', …)` or
`l2Contract.on('ASSETS_SOLD', …)`): the raw event, the record fields the relay
would persist for it, and the environment-determined outcome of the relay
submission. -/
structure LiveArrival where
  raw : RawEvent
  pend : PendingTransaction
  outcome : SubmitOutcome
deriving Repr

/-- The listener's in-process state: the dedup set and the durable store. -/
structure ListenerState where
  processedEventHashes : List String
  store : List PendingTransaction
deriving Repr

/-- One streaming-handler invocation (`listenToL1Events` / `listenToL2Events`):
extract the hash (drop if absent), test-and-add on `processedEventHashes`
(both synchronous, before any `await`), then the durable `txHashExists` check,
then dispatch (`executeBuyOnL2` / `withdrawOnL1`).  Returns the new state and
whether a relay was dispatched. -/
def handleLiveEvent (σ : ListenerState) (a : LiveArrival) (outage : Bool) :
    ListenerState × Bool :=
  match getEventTxHash a.raw with
  | none => (σ, false)
  | some h =>
    if h ∈ σ.processedEventHashes then (σ, false)
    else
      let set1 := addProcessedHash σ.processedEventHashes h
      if txHashExists h σ.store outage then
        ({ σ with processedEventHashes := set1 }, false)
      else
        (⟨set1, relayLifecycle σ.store ({ a.pend with eventHash := some h })
            a.outcome outage⟩,
         true)

/-- One iteration of the loop body of `catchHistoricalL1Events` /
`catchHistoricalL2Events` over the events returned by `queryFilter`: extract
the hash, skip when absent or already processed, otherwise *only* mark the
hash processed and bump the `processedCount` — no database check and no
relay dispatch appear in the loop.  State: (set, processedCount,
duplicateCount). -/
def catchHistoricalStep (acc : List String × Nat × Nat) (ev : RawEvent) :
    List String × Nat × Nat :=
  match getEventTxHash ev with
  | none => acc
  | some h =>
    if h ∈ acc.1 then (acc.1, acc.2.1, acc.2.2 + 1)
    else (addProcessedHash acc.1 h, acc.2.1 + 1, acc.2.2)

/-- The whole backfill sweep over the events `queryFilter(filters…, fromBlock,
currentBlock)` returned. -/
def catchHistoricalEvents (set : List String) (events : List RawEvent) :
    List String × Nat × Nat :=
  events.foldl catchHistoricalStep (set, 0, 0)

/-- One scheduled piece of work inside a process run: either a live streaming
arrival, or one periodic historical sweep (`catchHistoricalL1Events` /
`catchHistoricalL2Events`) over the events its `queryFilter` returned. -/
inductive RunEvent where
  | live (a : LiveArrival)
  | backfill (events : List RawEvent)
deriving Repr

/-- Dispatch one run event: a live arrival goes through `handleLiveEvent`
(recording the dispatched hash, if any); a backfill sweep runs
`catchHistoricalEvents`, which touches only the dedup set — it performs no
database check and dispatches nothing (claim C4). -/
def handleRunEvent (σ : ListenerState) (e : RunEvent) : ListenerState × List String :=
  match e with
  | .live a =>
    let step := handleLiveEvent σ a false
    (step.1, if step.2 then (getEventTxHash a.raw).toList else [])
  | .backfill evs =>
    (⟨(catchHistoricalEvents σ.processedEventHashes evs).1, σ.store⟩, [])

/-- Run the events of one process run in order, collecting the hashes of the
dispatched relays. -/
def runEvents : ListenerState → List RunEvent → ListenerState × List String
  | σ, [] => (σ, [])
  | σ, e :: rest =>
    let step := handleRunEvent σ e
    let tail := runEvents step.1 rest
    (tail.1, step.2 ++ tail.2)

/-- `loadProcessedHashesFromDatabase`: for every record returned by `getAll()`
add its `eventHash` then its `txHash` (when present) to the starting set. -/
def loadProcessedHashesFromDatabase (store : List PendingTransaction)
    (outage : Bool) : List String :=
  (getAll store outage).foldl
    (fun s tx =>
      let s1 := match tx.eventHash with
        | some h => addProcessedHash s h
        | none => s
      match tx.txHash with
      | some h => addProcessedHash s1 h
      | none => s1)
    []

/-- A multi-run trace: each inner list is the run events (live arrivals and
backfill sweeps) of one process run; at each restart the dedup set is
reseeded from the store via `loadProcessedHashesFromDatabase` (the store,
being durable, carries over).  Returns the final store and the dispatched
hashes of each run. -/
def processTrace : List PendingTransaction → List (List RunEvent) →
    List PendingTransaction × List (List String)
  | store, [] => (store, [])
  | store, run :: rest =>
    let r1 := runEvents ⟨loadProcessedHashesFromDatabase store false, store⟩ run
    let r2 := processTrace r1.1.store rest
    (r2.1, r1.2 :: r2.2)

/-- The store each run of a trace starts from (aligned with the per-run
dispatch lists `processTrace` returns). -/
def runStartStores : List PendingTransaction → List (List RunEvent) →
    List (List PendingTransaction)
  | _, [] => []
  | store, run :: rest =>
    store :: runStartStores
      ((runEvents ⟨loadProcessedHashesFromDatabase store false, store⟩ run).1).store
      rest

/-- Number of records in the store carrying a given source-event hash. -/
def recCount (h : String) (store : List PendingTransaction) : Nat :=
  store.countP (fun r => decide (r.eventHash = some h))

/-! ## Reconnection backoff (`reconnectL1` / `reconnectL2`) -/

/-- `MAX_RETRIES`. -/
def MAX_RETRIES : Nat := 10

/-- `BACKOFF_BASE` (milliseconds). -/
def BACKOFF_BASE : Nat := 2000

/-- One call of `reconnectL1`/`reconnectL2` on the per-chain retry counter:
at the cap nothing is scheduled; otherwise a reconnection attempt is
scheduled after `BACKOFF_BASE * 2 ^ retries` ms and the counter increments. -/
def reconnectStep (retries : Nat) : Nat × Option Nat :=
  if MAX_RETRIES ≤ retries then (retries, none)
  else (retries + 1, some (BACKOFF_BASE * 2 ^ retries))

/-- Retry counter after `n` consecutive failures starting from a fresh (or
reset-by-success) counter; each failure (setup failure or health-check
failure) invokes the reconnect function once. -/
def retriesAfterFailures : Nat → Nat
  | 0 => 0
  | n + 1 => (reconnectStep (retriesAfterFailures n)).1

/-- Delay (ms) scheduled by the `n`-th consecutive failure (1-indexed), if
any. -/
def nthFailureDelay (n : Nat) : Option Nat :=
  (reconnectStep (retriesAfterFailures (n - 1))).2

/-! ## Buy relay call shape (`executeBuyOnL2`) -/

/-- `ethers.ZeroAddress`. -/
def ZeroAddress : String := "0x0000000000000000000000000000000000000000"

/-- The EIP-712 `ASSETS_BUY` struct fields passed to `signEIP712Bridge`. -/
structure BuySigStruct where
  user : String
  l2Token : String
  assetIn : String
  amount : Nat
  nonce : Nat
  deadline : Nat
deriving DecidableEq, Repr

/-- The `executeBuy` call as submitted:
`executeBuy(user, l2TargetToken, etherValue, 0, nonceExeBuy, deadline, sig,
{ gasLimit: 500000 })`. -/
structure BuyCall where
  user : String
  l2Token : String
  amount : Nat
  minOut : Nat
  nonce : Nat
  deadline : Nat
  sig : BuySigStruct
  gasLimit : Nat
deriving DecidableEq, Repr

/-- The call-construction part of `executeBuyOnL2`: read
`usedNonces(user)` and add 1, compute the signature over
`(user, l2TargetToken, ethers.ZeroAddress, etherValue, nonceExeBuy,
deadline)` (the zero address stands where `assetIn` belongs — the
`//TODO: Audit Fix needed here` line), and submit with `minOut = 0` and a
fixed `gasLimit` of 500000.  `etherValue` is the 18-decimal amount the
float normalization produced (its value is analyzed separately). -/
def executeBuyCall (user l2TargetToken : String) (usedNonces : Nat)
    (etherValue : Nat) (deadline : Nat) : BuyCall :=
  let nonceExeBuy := usedNonces + 1
  let sig : BuySigStruct :=
    ⟨user, l2TargetToken, ZeroAddress, etherValue, nonceExeBuy, deadline⟩
  ⟨user, l2TargetToken, etherValue, 0, nonceExeBuy, deadline, sig, 500000⟩

/-- The record literal `executeBuyOnL2` hands to `addPendingTx` (before
`relayLifecycle` fills `txHash`): `id = Date.now().toString()`, chain `'L2'`,
type `'BUY'`, the user *as received from the event* (not lowercased),
`l1Token = assetIn`, `l2Token = l2TargetToken`. -/
def buyPendingRecord (nowMs : Nat) (user amount assetIn l2TargetToken : String) :
    PendingTransaction :=
  { id := toString nowMs
    chain := "L2"
    type := "BUY"
    user := user
    amount := amount
    l1Token := some assetIn
    l2Token := some l2TargetToken
    status := .PENDING
    timestamp := nowMs
    createdAt := nowMs }

/-! ## Concrete inputs used by the theorems below -/

/-- No two records in the store carry the same source-event hash (the spec's
sparse-uniqueness of `eventHash`). -/
def StoreInv (store : List PendingTransaction) : Prop :=
  ∀ g, recCount g store ≤ 1

/-- A live arrival of the event with hash `0xh`, with a chosen relay
outcome. -/
def c1Arrival (o : SubmitOutcome) : LiveArrival :=
  ⟨{ transactionHash := some "0xh" }, buyPendingRecord 5 "0xU" "1" "0xa" "0xb", o⟩

/-- Two process runs: in the first, the event's relay submission fails with a
generic error (so no record is persisted); the process then restarts and the
same event arrives again, preceded by an (empty-result) backfill sweep. -/
def c1Trace : List (List RunEvent) :=
  [[.live (c1Arrival .rejectedOther)],
   [.backfill [], .live (c1Arrival (.accepted "0xt" .success))]]

/-- A record that has already reached the terminal status `CONFIRMED`. -/
def c2Record : PendingTransaction :=
  { id := "1", chain := "L2", type := "BUY", user := "0xu",
    txHash := some "0xt", status := .CONFIRMED, timestamp := 5, createdAt := 5 }

/-- A fresh historical event carrying its hash on `transactionHash`. -/
def c4Event : RawEvent := { transactionHash := some "0xfresh" }

/-- Record fields the relay would persist for the event above. -/
def c4Pend : PendingTransaction := buyPendingRecord 9 "0xU" "2" "0xa" "0xb"

/-- A store holding 1001 records: the 1000 most recent share the hash
`0xrecent`; the oldest (smallest `createdAt`) carries the hash `0xold`. -/
def bigStore : List PendingTransaction :=
  (List.range 1001).map (fun i =>
    { id := toString i, user := "u", status := .CONFIRMED,
      eventHash := some (if i = 1000 then "0xold" else "0xrecent"),
      createdAt := 1000 - i })

/-- The 1000 most recent records of `bigStore`, in `createdAt`-descending
order: what `getAll` returns for it. -/
def recentStore : List PendingTransaction :=
  (List.range 1000).map (fun i =>
    { id := toString i, user := "u", status := .CONFIRMED,
      eventHash := some "0xrecent",
      createdAt := 1000 - i })

/-- A persisted record with both hashes present. -/
def c5Rec : PendingTransaction :=
  { id := "1", chain := "L1", type := "SELL", user := "0xu",
    eventHash := some "0xe", txHash := some "0xr",
    status := .PENDING, timestamp := 3, createdAt := 3 }

/-- A one-record store. -/
def c5SmallStore : List PendingTransaction := [c5Rec]

/-! ## Helper lemmas -/

set_option maxRecDepth 10000

theorem mem_addProcessedHash {s : List String} {g h : String} :
    g ∈ addProcessedHash s h ↔ g = h ∨ g ∈ s := by
  unfold addProcessedHash
  by_cases hm : h ∈ s
  · simp only [if_pos hm]
    constructor
    · exact fun hg => Or.inr hg
    · rintro (rfl | hg)
      · exact hm
      · exact hg
  · simp [if_neg hm]

theorem mem_loadStep {s : List String} {g : String} {tx : PendingTransaction} :
    g ∈ (match tx.txHash with
          | some h => addProcessedHash
              (match tx.eventHash with
               | some h' => addProcessedHash s h'
               | none => s) h
          | none => (match tx.eventHash with
               | some h' => addProcessedHash s h'
               | none => s)) ↔
      (tx.eventHash = some g ∨ tx.txHash = some g) ∨ g ∈ s := by
  cases he : tx.eventHash <;> cases ht : tx.txHash <;>
    simp [mem_addProcessedHash, eq_comm, or_comm, or_assoc, or_left_comm]

theorem mem_loadProcessedHashes {store : List PendingTransaction} {outage : Bool}
    {g : String} :
    g ∈ loadProcessedHashesFromDatabase store outage ↔
      ∃ tx ∈ getAll store outage, tx.eventHash = some g ∨ tx.txHash = some g := by
  unfold loadProcessedHashesFromDatabase
  generalize getAll store outage = l
  have main : ∀ (l : List PendingTransaction) (s : List String),
      g ∈ l.foldl (fun s tx =>
        let s1 := match tx.eventHash with
          | some h => addProcessedHash s h
          | none => s
        match tx.txHash with
        | some h => addProcessedHash s1 h
        | none => s1) s ↔
        (∃ tx ∈ l, tx.eventHash = some g ∨ tx.txHash = some g) ∨ g ∈ s := by
    intro l
    induction l with
    | nil => intro s; simp
    | cons tx rest ih =>
      intro s
      simp only [List.foldl_cons, ih, List.mem_cons]
      rw [mem_loadStep]
      constructor
      · rintro (⟨tx', htx', hh⟩ | (hh | hh))
        · exact Or.inl ⟨tx', Or.inr htx', hh⟩
        · exact Or.inl ⟨tx, Or.inl rfl, hh⟩
        · exact Or.inr hh
      · rintro (⟨tx', (rfl | htx'), hh⟩ | hh)
        · exact Or.inr (Or.inl hh)
        · exact Or.inl ⟨tx', htx', hh⟩
        · exact Or.inr (Or.inr hh)
  rw [main l []]
  simp

theorem getAll_bigStore : getAll bigStore false = recentStore := by decide

theorem recCount_nil (g : String) : recCount g [] = 0 := rfl

theorem recCount_cons (g : String) (r : PendingTransaction)
    (rs : List PendingTransaction) :
    recCount g (r :: rs) = recCount g rs + (if r.eventHash = some g then 1 else 0) := by
  unfold recCount
  simp [List.countP_cons]

theorem recCount_le_matches (g : String) (store : List PendingTransaction) :
    recCount g store ≤ store.countP (matchesHash g) := by
  apply List.countP_mono_left
  intro r _ hp
  unfold matchesHash
  simp only [decide_eq_true_eq] at hp
  simp [hp]

theorem recCount_zero_of_txHashExists_false {h : String}
    {store : List PendingTransaction}
    (hx : txHashExists h store false = false) : recCount h store = 0 := by
  unfold txHashExists at hx
  simp only [if_neg Bool.false_ne_true] at hx
  simp only [decide_eq_false_iff_not, Nat.not_lt, Nat.le_zero] at hx
  have := recCount_le_matches h store
  omega

theorem recCount_setStatusFirst (g h : String) (st : TxStatus) :
    ∀ store : List PendingTransaction,
      recCount g (setStatusFirst h st store).1 = recCount g store
  | [] => rfl
  | r :: rs => by
    unfold setStatusFirst
    by_cases hm : matchesHash h r
    · simp only [if_pos hm]
      rw [recCount_cons, recCount_cons]
    · simp only [if_neg hm]
      simp only [recCount_cons]
      rw [recCount_setStatusFirst g h st rs]

theorem recCount_upsert_le (g : String) (tx : PendingTransaction) :
    ∀ store : List PendingTransaction,
      recCount g (upsertById tx store) ≤
        recCount g store + (if tx.eventHash = some g then 1 else 0)
  | [] => by
    unfold upsertById
    rw [recCount_cons]
  | r :: rs => by
    unfold upsertById
    by_cases hid : r.id = tx.id
    · simp only [if_pos hid]
      rw [recCount_cons, recCount_cons]
      omega
    · simp only [if_neg hid]
      rw [recCount_cons, recCount_cons]
      have := recCount_upsert_le g tx rs
      omega

theorem recCount_relayLifecycle_le (g : String) (store : List PendingTransaction)
    (pend : PendingTransaction) (outcome : SubmitOutcome) :
    recCount g (relayLifecycle store pend outcome false) ≤
      recCount g store + (if pend.eventHash = some g then 1 else 0) := by
  unfold relayLifecycle
  match outcome with
  | .accepted t w =>
    match w with
    | .success =>
      simp only
      unfold updateTxStatusByHash
      simp only [if_neg Bool.false_ne_true]
      rw [recCount_setStatusFirst]
      unfold addPendingTx
      exact recCount_upsert_le g _ store
    | .revert =>
      simp only
      unfold addPendingTx
      exact recCount_upsert_le g _ store
  | .rejectedAlreadyKnown => simp
  | .rejectedOther => simp

theorem handleLiveEvent_storeInv {σ : ListenerState} {a : LiveArrival}
    (hinv : StoreInv σ.store) :
    StoreInv ((handleLiveEvent σ a false).1).store := by
  unfold handleLiveEvent
  match hh : getEventTxHash a.raw with
  | none => exact hinv
  | some h =>
    simp only
    by_cases hmem : h ∈ σ.processedEventHashes
    · simp only [if_pos hmem]
      exact hinv
    · simp only [if_neg hmem]
      by_cases hex : txHashExists h σ.store false
      · simp only [if_pos hex]
        exact hinv
      · simp only [if_neg hex]
        intro g
        have hle := recCount_relayLifecycle_le g σ.store
          ({ a.pend with eventHash := some h }) a.outcome
        simp only at hle
        rcases eq_or_ne h g with rfl | hgh
        · rw [if_pos rfl] at hle
          have h0 := recCount_zero_of_txHashExists_false
            (Bool.eq_false_iff.mpr hex)
          omega
        · rw [if_neg (by simp [hgh])] at hle
          have := hinv g
          omega

theorem catchHistoricalStep_set_mono {acc : List String × Nat × Nat}
    {ev : RawEvent} {x : String} (hx : x ∈ acc.1) :
    x ∈ (catchHistoricalStep acc ev).1 := by
  unfold catchHistoricalStep
  match hh : getEventTxHash ev with
  | none => exact hx
  | some h =>
    simp only
    by_cases hmem : h ∈ acc.1
    · simp only [if_pos hmem]
      exact hx
    · simp only [if_neg hmem]
      exact mem_addProcessedHash.mpr (Or.inr hx)

theorem catchHistorical_foldl_set_mono {x : String} :
    ∀ (evs : List RawEvent) (acc : List String × Nat × Nat), x ∈ acc.1 →
      x ∈ (evs.foldl catchHistoricalStep acc).1
  | [], _, hx => hx
  | _ :: rest, _, hx =>
    catchHistorical_foldl_set_mono rest _ (catchHistoricalStep_set_mono hx)

theorem catchHistoricalEvents_set_mono {s : List String} {evs : List RawEvent}
    {x : String} (hx : x ∈ s) : x ∈ (catchHistoricalEvents s evs).1 := by
  unfold catchHistoricalEvents
  exact catchHistorical_foldl_set_mono evs (s, 0, 0) hx

theorem handleRunEvent_storeInv {σ : ListenerState} {e : RunEvent}
    (hinv : StoreInv σ.store) : StoreInv ((handleRunEvent σ e).1).store := by
  match e with
  | .live a => exact handleLiveEvent_storeInv hinv
  | .backfill evs => exact hinv

theorem runEvents_storeInv :
    ∀ (evs : List RunEvent) (σ : ListenerState), StoreInv σ.store →
      StoreInv ((runEvents σ evs).1).store
  | [], σ, hinv => hinv
  | e :: rest, σ, hinv => by
    unfold runEvents
    exact runEvents_storeInv rest _ (handleRunEvent_storeInv hinv)

theorem processTrace_storeInv :
    ∀ (trace : List (List RunEvent)) (store : List PendingTransaction),
      StoreInv store → StoreInv (processTrace store trace).1
  | [], store, hinv => hinv
  | run :: rest, store, hinv => by
    unfold processTrace
    exact processTrace_storeInv rest _
      (runEvents_storeInv run ⟨loadProcessedHashesFromDatabase store false, store⟩ hinv)

theorem handleLiveEvent_set_mono {σ : ListenerState} {a : LiveArrival}
    {o : Bool} {x : String} (hx : x ∈ σ.processedEventHashes) :
    x ∈ ((handleLiveEvent σ a o).1).processedEventHashes := by
  unfold handleLiveEvent
  match hh : getEventTxHash a.raw with
  | none => exact hx
  | some h =>
    simp only
    by_cases hmem : h ∈ σ.processedEventHashes
    · simp only [if_pos hmem]
      exact hx
    · simp only [if_neg hmem]
      have hadd : x ∈ addProcessedHash σ.processedEventHashes h := by
        unfold addProcessedHash
        split
        · exact hx
        · exact List.mem_cons_of_mem _ hx
      by_cases hex : txHashExists h σ.store o
      · simp only [if_pos hex]
        exact hadd
      · simp only [if_neg hex]
        exact hadd

theorem handleLiveEvent_dispatched_props {σ : ListenerState} {a : LiveArrival}
    {o : Bool} {h : String} (hh : getEventTxHash a.raw = some h)
    (hd : (handleLiveEvent σ a o).2 = true) :
    h ∉ σ.processedEventHashes ∧
      h ∈ ((handleLiveEvent σ a o).1).processedEventHashes := by
  unfold handleLiveEvent at *
  rw [hh] at hd ⊢
  simp only at hd ⊢
  by_cases hmem : h ∈ σ.processedEventHashes
  · simp [if_pos hmem] at hd
  · refine ⟨hmem, ?_⟩
    simp only [if_neg hmem] at hd ⊢
    have hadd : h ∈ addProcessedHash σ.processedEventHashes h := by
      unfold addProcessedHash
      split
      · assumption
      · exact List.mem_cons_self _ _
    by_cases hex : txHashExists h σ.store o
    · simp only [if_pos hex]
      exact hadd
    · simp only [if_neg hex]
      exact hadd

theorem handleRunEvent_set_mono {σ : ListenerState} {e : RunEvent} {x : String}
    (hx : x ∈ σ.processedEventHashes) :
    x ∈ ((handleRunEvent σ e).1).processedEventHashes := by
  match e with
  | .live a => exact handleLiveEvent_set_mono hx
  | .backfill evs => exact catchHistoricalEvents_set_mono hx

theorem handleRunEvent_count_zero_of_mem {σ : ListenerState} {e : RunEvent}
    {h : String} (hmem : h ∈ σ.processedEventHashes) :
    (handleRunEvent σ e).2.count h = 0 := by
  match e with
  | .backfill evs => rfl
  | .live a =>
    show ((if (handleLiveEvent σ a false).2 then (getEventTxHash a.raw).toList
      else []).count h) = 0
    by_cases hd : (handleLiveEvent σ a false).2
    · rw [if_pos hd]
      match hh : getEventTxHash a.raw with
      | none => rfl
      | some h' =>
        rcases eq_or_ne h' h with rfl | hne
        · exact absurd hmem ((handleLiveEvent_dispatched_props hh hd).1)
        · simp [Option.toList_some, List.count_cons, hne]
    · rw [if_neg hd]
      rfl

theorem handleRunEvent_count_le_one (σ : ListenerState) (e : RunEvent)
    (h : String) : (handleRunEvent σ e).2.count h ≤ 1 := by
  match e with
  | .backfill evs =>
    show (([] : List String).count h) ≤ 1
    simp
  | .live a =>
    show ((if (handleLiveEvent σ a false).2 then (getEventTxHash a.raw).toList
      else []).count h) ≤ 1
    by_cases hd : (handleLiveEvent σ a false).2
    · rw [if_pos hd]
      match getEventTxHash a.raw with
      | none => simp
      | some h' =>
        by_cases hbe : h' = h <;> simp [Option.toList_some, List.count_cons, hbe]
    · rw [if_neg hd]
      simp

theorem handleRunEvent_mem_of_count_one (σ : ListenerState) (e : RunEvent)
    {h : String} (h1 : (handleRunEvent σ e).2.count h = 1) :
    h ∈ ((handleRunEvent σ e).1).processedEventHashes := by
  match e with
  | .backfill evs => exact absurd h1 (by simp [handleRunEvent])
  | .live a =>
    have h1' : ((if (handleLiveEvent σ a false).2 then (getEventTxHash a.raw).toList
      else []).count h) = 1 := h1
    by_cases hd : (handleLiveEvent σ a false).2
    · rw [if_pos hd] at h1'
      cases hh : getEventTxHash a.raw with
      | none =>
        rw [hh] at h1'
        simp at h1'
      | some h' =>
        rw [hh] at h1'
        rcases eq_or_ne h' h with rfl | hne
        · exact (handleLiveEvent_dispatched_props hh hd).2
        · rw [Option.toList_some] at h1'
          simp [List.count_cons, hne] at h1'
    · rw [if_neg hd] at h1'
      simp at h1'

theorem handleLiveEvent_durable_guard {σ : ListenerState} {a : LiveArrival}
    {h : String} (hh : getEventTxHash a.raw = some h)
    (hx : txHashExists h σ.store false = true) :
    (handleLiveEvent σ a false).2 = false := by
  unfold handleLiveEvent
  rw [hh]
  simp only
  by_cases hmem : h ∈ σ.processedEventHashes
  · simp [if_pos hmem]
  · simp only [if_neg hmem]
    rw [if_pos hx]

theorem runEvents_no_dispatch_of_mem :
    ∀ (evs : List RunEvent) (σ : ListenerState) (h : String),
      h ∈ σ.processedEventHashes → (runEvents σ evs).2.count h = 0
  | [], _, _, _ => rfl
  | e :: rest, σ, h, hmem => by
    unfold runEvents
    simp only [List.count_append]
    rw [handleRunEvent_count_zero_of_mem hmem,
      runEvents_no_dispatch_of_mem rest _ h (handleRunEvent_set_mono hmem)]

theorem runEvents_dispatch_count_le_one :
    ∀ (evs : List RunEvent) (σ : ListenerState) (h : String),
      (runEvents σ evs).2.count h ≤ 1
  | [], _, _ => by simp [runEvents]
  | e :: rest, σ, h => by
    unfold runEvents
    simp only [List.count_append]
    by_cases hz : (handleRunEvent σ e).2.count h = 0
    · rw [hz]
      have ht := runEvents_dispatch_count_le_one rest (handleRunEvent σ e).1 h
      omega
    · have hone : (handleRunEvent σ e).2.count h = 1 := by
        have := handleRunEvent_count_le_one σ e h
        omega
      rw [hone,
        runEvents_no_dispatch_of_mem rest _ h
          (handleRunEvent_mem_of_count_one σ e hone)]

theorem processTrace_dispatch_le_one :
    ∀ (trace : List (List RunEvent)) (store : List PendingTransaction)
      (h : String) (ds : List String), ds ∈ (processTrace store trace).2 →
      ds.count h ≤ 1
  | [], _, _, _, hds => by simp [processTrace] at hds
  | run :: rest, store, h, ds, hds => by
    unfold processTrace at hds
    rcases List.mem_cons.mp hds with rfl | hds'
    · exact runEvents_dispatch_count_le_one run _ h
    · exact processTrace_dispatch_le_one rest _ h ds hds'

theorem runEvents_no_dispatch_of_persisted (store : List PendingTransaction)
    (run : List RunEvent) (h : String)
    (hex : ∃ r ∈ getAll store false, r.eventHash = some h ∨ r.txHash = some h) :
    (runEvents ⟨loadProcessedHashesFromDatabase store false, store⟩ run).2.count h
      = 0 :=
  runEvents_no_dispatch_of_mem run _ h (mem_loadProcessedHashes.mpr hex)

theorem processTrace_no_dispatch_of_persisted :
    ∀ (trace : List (List RunEvent)) (store0 : List PendingTransaction)
      (h : String) (p : List PendingTransaction × List String),
      p ∈ (runStartStores store0 trace).zip (processTrace store0 trace).2 →
      (∃ r ∈ getAll p.1 false, r.eventHash = some h ∨ r.txHash = some h) →
      p.2.count h = 0
  | [], _, _, _, hp => by simp [runStartStores, processTrace] at hp
  | run :: rest, store0, h, p, hp => by
    simp only [runStartStores, processTrace] at hp
    rw [List.zip_cons_cons] at hp
    rcases List.mem_cons.mp hp with rfl | hp'
    · exact fun hex => runEvents_no_dispatch_of_persisted store0 run h hex
    · exact processTrace_no_dispatch_of_persisted rest _ h p hp'

theorem setStatusFirst_mem_of_find :
    ∀ (store : List PendingTransaction) (h : String) (st : TxStatus)
      (r0 : PendingTransaction),
      store.find? (matchesHash h) = some r0 →
      ({ r0 with status := st }) ∈ (setStatusFirst h st store).1
  | [], _, _, _, hf => by simp at hf
  | r :: rs, h, st, r0, hf => by
    unfold setStatusFirst
    rw [List.find?_cons] at hf
    by_cases hm : matchesHash h r
    · rw [if_pos hm]
      simp only [hm, cond_true, Option.some_inj] at hf
      subst hf
      exact List.mem_cons_self _ _
    · rw [if_neg hm]
      simp only [Bool.eq_false_iff.mpr hm, cond_false] at hf
      exact List.mem_cons_of_mem _ (setStatusFirst_mem_of_find rs h st r0 hf)

theorem matches_false_of_txHashExists_false {t : String}
    {store : List PendingTransaction}
    (hx : txHashExists t store false = false) :
    ∀ r ∈ store, matchesHash t r = false := by
  unfold txHashExists at hx
  simp only [if_neg Bool.false_ne_true] at hx
  simp only [decide_eq_false_iff_not, Nat.not_lt, Nat.le_zero] at hx
  exact fun r hr => Bool.eq_false_iff.mpr (List.countP_eq_zero.mp hx r hr)

theorem self_mem_upsertById (tx : PendingTransaction) :
    ∀ store : List PendingTransaction, tx ∈ upsertById tx store
  | [] => List.mem_cons_self _ _
  | r :: rs => by
    unfold upsertById
    by_cases hid : r.id = tx.id
    · rw [if_pos hid]
      exact List.mem_cons_self _ _
    · rw [if_neg hid]
      exact List.mem_cons_of_mem _ (self_mem_upsertById tx rs)

theorem mem_upsertById_elim {tx r : PendingTransaction} :
    ∀ {store : List PendingTransaction}, r ∈ upsertById tx store →
      r = tx ∨ r ∈ store := by
  intro store
  induction store with
  | nil =>
    intro hr
    unfold upsertById at hr
    rcases List.mem_singleton.mp hr with rfl
    exact Or.inl rfl
  | cons x xs ih =>
    intro hr
    unfold upsertById at hr
    by_cases hid : x.id = tx.id
    · rw [if_pos hid] at hr
      rcases List.mem_cons.mp hr with rfl | hr'
      · exact Or.inl rfl
      · exact Or.inr (List.mem_cons_of_mem _ hr')
    · rw [if_neg hid] at hr
      rcases List.mem_cons.mp hr with rfl | hr'
      · exact Or.inr (List.mem_cons_self _ _)
      · rcases ih hr' with h | h
        · exact Or.inl h
        · exact Or.inr (List.mem_cons_of_mem _ h)

theorem mem_setStatusFirst_upsert {t : String} {st : TxStatus}
    {p1 : PendingTransaction} (hp1 : matchesHash t p1 = true) :
    ∀ (store : List PendingTransaction),
      (∀ r ∈ store, matchesHash t r = false) →
      ({ p1 with status := st }) ∈ (setStatusFirst t st (upsertById p1 store)).1
  | [], _ => by
    unfold upsertById setStatusFirst
    rw [if_pos hp1]
    exact List.mem_cons_self _ _
  | r :: rs, hnm => by
    unfold upsertById
    by_cases hid : r.id = p1.id
    · rw [if_pos hid]
      unfold setStatusFirst
      rw [if_pos hp1]
      exact List.mem_cons_self _ _
    · rw [if_neg hid]
      unfold setStatusFirst
      rw [if_neg (Bool.eq_false_iff.mp (hnm r (List.mem_cons_self _ _)))]
      exact List.mem_cons_of_mem _
        (mem_setStatusFirst_upsert hp1 rs
          (fun r' hr' => hnm r' (List.mem_cons_of_mem _ hr')))

theorem retriesAfterFailures_eq (k : Nat) : retriesAfterFailures k = min k 10 := by
  induction k with
  | zero => rfl
  | succ n ih =>
    unfold retriesAfterFailures reconnectStep MAX_RETRIES
    rw [ih]
    split <;> omega

/-! ## Claim theorems -/

/-- Claim C1, counterexample to the dispatch half: the claim asserts at most
one relay is ever dispatched for a given `eventHash`, for any arrival stream
including restarts.  In the concrete trace `c1Trace` the first run's relay
submission fails before a record is persisted, the process restarts with the
dedup set reseeded from the (still empty) store, and the same event is
relayed a second time: two dispatches for hash `0xh`. -/
theorem claim1_counterexample :
    ((processTrace [] c1Trace).2.flatten).count "0xh" = 2 := by decide

/-- Claim C1 as amended: across any multi-run trace of live arrivals and
backfill sweeps (starting from any store in which no hash is duplicated, and
with the dedup set reseeded from the store at each restart), (i) at most one
`RelayRecord` with a given `eventHash` is ever created; (ii) within any
single process run at most one relay is dispatched per hash; (iii) once a
record with hash `h` is persisted, no later run whose `getAll` view (the
1000 most recent records) still contains it dispatches any relay for `h`;
and (iv) at handling time a live event whose hash the store currently
matches is never dispatched (the durable `txHashExists` guard, which also
covers records older than the `getAll` window).  Only the cross-restart
at-most-once-dispatch guarantee fails: a dispatch whose submission failed
before persisting can repeat after a restart. -/
theorem claim1_at_most_once_record (store0 : List PendingTransaction)
    (trace : List (List RunEvent)) (h : String)
    (hinv : ∀ g, recCount g store0 ≤ 1) :
    recCount h (processTrace store0 trace).1 ≤ 1 ∧
      (∀ ds ∈ (processTrace store0 trace).2, ds.count h ≤ 1) ∧
      (∀ p ∈ (runStartStores store0 trace).zip (processTrace store0 trace).2,
        (∃ r ∈ getAll p.1 false, r.eventHash = some h ∨ r.txHash = some h) →
        p.2.count h = 0) ∧
      (∀ (σ : ListenerState) (a : LiveArrival), getEventTxHash a.raw = some h →
        txHashExists h σ.store false = true →
        (handleLiveEvent σ a false).2 = false) :=
  ⟨processTrace_storeInv trace store0 hinv h,
   fun ds hds => processTrace_dispatch_le_one trace store0 h ds hds,
   fun p hp hex => processTrace_no_dispatch_of_persisted trace store0 h p hp hex,
   fun _ _ hh hx => handleLiveEvent_durable_guard hh hx⟩

/-- Claim C1 witness: the amended theorem instantiated on the empty store and
the concrete restart trace (whose second run includes a backfill sweep). -/
theorem claim1_witness :
    (∀ g, recCount g ([] : List PendingTransaction) ≤ 1) ∧
      (recCount "0xh" (processTrace [] c1Trace).1 ≤ 1 ∧
        (∀ ds ∈ (processTrace [] c1Trace).2, ds.count "0xh" ≤ 1) ∧
        (∀ p ∈ (runStartStores [] c1Trace).zip (processTrace [] c1Trace).2,
          (∃ r ∈ getAll p.1 false,
            r.eventHash = some "0xh" ∨ r.txHash = some "0xh") →
          p.2.count "0xh" = 0) ∧
        (∀ (σ : ListenerState) (a : LiveArrival),
          getEventTxHash a.raw = some "0xh" →
          txHashExists "0xh" σ.store false = true →
          (handleLiveEvent σ a false).2 = false)) :=
  ⟨fun g => by simp [recCount],
   claim1_at_most_once_record [] c1Trace "0xh" (fun g => by simp [recCount])⟩

/-- Claim C2, counterexample: `c2Record` has terminal status `CONFIRMED`, yet
`updateTxStatusByHash` with `FAILED` on a matching hash overwrites it and
reports a modification — terminal statuses are not absorbing. -/
theorem claim2_counterexample :
    c2Record.status = TxStatus.CONFIRMED ∧
      (updateTxStatusByHash "0xt" TxStatus.FAILED [c2Record] false).1 =
        [{ c2Record with status := TxStatus.FAILED }] ∧
      (updateTxStatusByHash "0xt" TxStatus.FAILED [c2Record] false).2 = true := by
  decide

/-- Claim C2 as amended: `updateTxStatusByHash` sets the requested status on
the first record matching either hash unconditionally — regardless of the
record's current status, terminal or not. -/
theorem claim2_sets_status_unconditionally (store : List PendingTransaction)
    (h : String) (st : TxStatus) (r0 : PendingTransaction)
    (hfind : store.find? (matchesHash h) = some r0) :
    ({ r0 with status := st }) ∈ (updateTxStatusByHash h st store false).1 := by
  unfold updateTxStatusByHash
  rw [if_neg Bool.false_ne_true]
  exact setStatusFirst_mem_of_find store h st r0 hfind

/-- Claim C2 witness: the amended theorem instantiated on a `CONFIRMED`
record downgraded all the way back to `PENDING`. -/
theorem claim2_witness :
    [c2Record].find? (matchesHash "0xt") = some c2Record ∧
      ({ c2Record with status := TxStatus.PENDING }) ∈
        (updateTxStatusByHash "0xt" TxStatus.PENDING [c2Record] false).1 :=
  ⟨by decide,
   claim2_sets_status_unconditionally [c2Record] "0xt" TxStatus.PENDING c2Record
     (by decide)⟩

/-- Claim C3, counterexample to the revert half: the claim asserts a relay
whose `wait()` reports a revert has its record set to `FAILED`.  In the code
the revert error is caught and only logged, so the freshly persisted record
keeps status `PENDING` — no `FAILED` transition exists. -/
theorem claim3_counterexample :
    (relayLifecycle [] (buyPendingRecord 7 "0xU" "1.5" "0xa" "0xb")
        (.accepted "0xt" .revert) false).map (fun r => r.status) =
      [TxStatus.PENDING] := by decide

/-- Claim C3 as amended: when `wait()` succeeds the record is set to
`CONFIRMED`; when `wait()` reverts the caught error leaves the record at
`PENDING` (no record ever becomes `FAILED` that was not already so); a
submission error — whether or not its message contains "already known" —
leaves the store entirely unchanged (the record is created only after a
successful submission). -/
theorem claim3_relay_outcomes (store : List PendingTransaction)
    (pend : PendingTransaction) (t : String)
    (hfresh : txHashExists t store false = false) :
    ({ pend with txHash := some t, status := TxStatus.CONFIRMED }) ∈
        relayLifecycle store pend (.accepted t .success) false ∧
      ({ pend with txHash := some t, status := TxStatus.PENDING }) ∈
        relayLifecycle store pend (.accepted t .revert) false ∧
      (∀ r ∈ relayLifecycle store pend (.accepted t .revert) false,
        r.status = TxStatus.FAILED → r ∈ store) ∧
      relayLifecycle store pend .rejectedAlreadyKnown false = store ∧
      relayLifecycle store pend .rejectedOther false = store := by
  have hnm := matches_false_of_txHashExists_false hfresh
  have hsucc : relayLifecycle store pend (.accepted t .success) false =
      (setStatusFirst t TxStatus.CONFIRMED
        (upsertById ({ pend with txHash := some t, status := TxStatus.PENDING })
          store)).1 := rfl
  have hrev : relayLifecycle store pend (.accepted t .revert) false =
      upsertById ({ pend with txHash := some t, status := TxStatus.PENDING })
        store := rfl
  refine ⟨?_, ?_, ?_, rfl, rfl⟩
  · rw [hsucc]
    exact mem_setStatusFirst_upsert (by unfold matchesHash; simp) store hnm
  · rw [hrev]
    exact self_mem_upsertById _ store
  · intro r hr hst
    rw [hrev] at hr
    rcases mem_upsertById_elim hr with rfl | hmem
    · simp at hst
    · exact hmem

/-- Claim C3 witness: the amended theorem instantiated on the empty store. -/
theorem claim3_witness :
    txHashExists "0xt" [] false = false ∧
      (({ buyPendingRecord 7 "0xU" "1.5" "0xa" "0xb" with
            txHash := some "0xt", status := TxStatus.CONFIRMED }) ∈
          relayLifecycle [] (buyPendingRecord 7 "0xU" "1.5" "0xa" "0xb")
            (.accepted "0xt" .success) false ∧
        ({ buyPendingRecord 7 "0xU" "1.5" "0xa" "0xb" with
            txHash := some "0xt", status := TxStatus.PENDING }) ∈
          relayLifecycle [] (buyPendingRecord 7 "0xU" "1.5" "0xa" "0xb")
            (.accepted "0xt" .revert) false ∧
        (∀ r ∈ relayLifecycle [] (buyPendingRecord 7 "0xU" "1.5" "0xa" "0xb")
            (.accepted "0xt" .revert) false,
          r.status = TxStatus.FAILED →
            r ∈ ([] : List PendingTransaction)) ∧
        relayLifecycle [] (buyPendingRecord 7 "0xU" "1.5" "0xa" "0xb")
            .rejectedAlreadyKnown false = [] ∧
        relayLifecycle [] (buyPendingRecord 7 "0xU" "1.5" "0xa" "0xb")
            .rejectedOther false = []) :=
  ⟨rfl, claim3_relay_outcomes [] (buyPendingRecord 7 "0xU" "1.5" "0xa" "0xb")
    "0xt" rfl⟩

/-- Claim C4, code-bug evidence: a fresh event discovered only by the
historical sweep is merely added to `processedEventHashes` (and counted as
"processed") — the sweep makes no durable check and dispatches no relay —
and that very marking then makes the live path drop the event too, so its
relay never happens and the store stays empty. -/
theorem claim4_backfill_never_dispatches :
    "0xfresh" ∈ (catchHistoricalEvents [] [c4Event]).1 ∧
      (catchHistoricalEvents [] [c4Event]).2.1 = 1 ∧
      (handleLiveEvent ⟨(catchHistoricalEvents [] [c4Event]).1, []⟩
          ⟨c4Event, c4Pend, .accepted "0xt" .success⟩ false).2 = false ∧
      (handleLiveEvent ⟨(catchHistoricalEvents [] [c4Event]).1, []⟩
          ⟨c4Event, c4Pend, .accepted "0xt" .success⟩ false).1.store = [] := by
  decide

/-- Claim C5, counterexample: `bigStore` holds 1001 persisted records; the
oldest one's `eventHash` (`0xold`) is *not* in the rehydrated set, because
`getAll` limits the scan to the 1000 most recent records — the rebuild is not
complete "regardless of how many records the store holds". -/
theorem claim5_counterexample :
    (∃ r ∈ bigStore, r.eventHash = some "0xold") ∧
      "0xold" ∉ loadProcessedHashesFromDatabase bigStore false := by
  constructor
  · refine ⟨_, List.mem_map.mpr ⟨1000, ?_, rfl⟩, ?_⟩
    · simp [List.mem_range]
    · simp
  · rw [mem_loadProcessedHashes, getAll_bigStore]
    rintro ⟨tx, htx, hh⟩
    obtain ⟨i, hi, rfl⟩ := List.mem_map.mp htx
    simp at hh

/-- Claim C5 as amended: after startup rehydration, every non-null
`eventHash` and every non-null `txHash` of every record *among the 1000 most
recent by `createdAt`* (those returned by `getAll`) is a member of the
in-memory processed-hash set; older records are not loaded. -/
theorem claim5_dedup_rebuild (store : List PendingTransaction)
    (r : PendingTransaction) (g : String) (hr : r ∈ getAll store false)
    (hg : r.eventHash = some g ∨ r.txHash = some g) :
    g ∈ loadProcessedHashesFromDatabase store false :=
  mem_loadProcessedHashes.mpr ⟨r, hr, hg⟩

/-- Claim C5 witness: the amended theorem instantiated on a one-record
store. -/
theorem claim5_witness :
    (c5Rec ∈ getAll c5SmallStore false) ∧
      (c5Rec.eventHash = some "0xe" ∨ c5Rec.txHash = some "0xe") ∧
      "0xe" ∈ loadProcessedHashesFromDatabase c5SmallStore false :=
  ⟨by decide, by decide,
   claim5_dedup_rebuild c5SmallStore c5Rec "0xe" (by decide) (by decide)⟩

/-- Claim C6: for every Buy intent reaching submission, the relayer calls
`executeBuy(user, l2TargetToken, normalizedAmount, 0, usedNonces(user) + 1,
deadline, sig)` with a fixed gas limit of 500000, and the EIP-712 Buy struct
it signs carries the zero address in its `assetIn` field. -/
theorem claim6_buy_call_shape (user l2TargetToken : String)
    (usedNonces etherValue deadline : Nat) :
    (executeBuyCall user l2TargetToken usedNonces etherValue deadline).nonce =
        usedNonces + 1 ∧
      (executeBuyCall user l2TargetToken usedNonces etherValue deadline).gasLimit =
        500000 ∧
      (executeBuyCall user l2TargetToken usedNonces etherValue deadline).sig.assetIn =
        ZeroAddress ∧
      executeBuyCall user l2TargetToken usedNonces etherValue deadline =
        { user := user, l2Token := l2TargetToken, amount := etherValue,
          minOut := 0, nonce := usedNonces + 1, deadline := deadline,
          sig := { user := user, l2Token := l2TargetToken,
                   assetIn := ZeroAddress, amount := etherValue,
                   nonce := usedNonces + 1, deadline := deadline },
          gasLimit := 500000 } :=
  ⟨rfl, rfl, rfl, rfl⟩

/-- Claim C7: on the `n`-th consecutive setup/health failure (1-indexed,
counter reset by success), the reconnection attempt is scheduled
`2000 * 2 ^ (n - 1)` milliseconds (that is, `2 * 2 ^ (n - 1)` seconds) after
the failure when `n ≤ 10`, and from the 11th consecutive failure on, nothing
is scheduled. -/
theorem claim7_backoff_schedule (n : Nat) (hn : 1 ≤ n) :
    (n ≤ 10 → nthFailureDelay n = some (2000 * 2 ^ (n - 1))) ∧
      (11 ≤ n → nthFailureDelay n = none) := by
  unfold nthFailureDelay reconnectStep MAX_RETRIES BACKOFF_BASE
  rw [retriesAfterFailures_eq]
  constructor
  · intro h10
    have hmin : min (n - 1) 10 = n - 1 := by omega
    rw [hmin, if_neg (by omega)]
  · intro h11
    have hmin : min (n - 1) 10 = 10 := by omega
    rw [hmin, if_pos (by omega)]

/-- Claim C7 witness: the third consecutive failure schedules the retry
after 8 seconds. -/
theorem claim7_witness :
    (1 ≤ 3 ∧ (3 ≤ 10 → nthFailureDelay 3 = some (2000 * 2 ^ (3 - 1)))) ∧
      (11 ≤ 3 → nthFailureDelay 3 = none) :=
  ⟨⟨by decide, (claim7_backoff_schedule 3 (by decide)).1⟩,
   (claim7_backoff_schedule 3 (by decide)).2⟩

/-- Claim C9, code-bug evidence: the relay path stores the user address
verbatim (mixed case), while the pending-by-user lookup lowercases its input
before an exact match — so a record written for the mixed-case address
`0xAbCd` is found under *no* casing of that address. -/
theorem claim9_user_casing_lookup_miss :
    (buyPendingRecord 5 "0xAbCd" "1" "0xT1" "0xT2").user = "0xAbCd" ∧
      getUserPendingTxs "0xAbCd"
        [buyPendingRecord 5 "0xAbCd" "1" "0xT1" "0xT2"] false = [] ∧
      getUserPendingTxs "0xabcd"
        [buyPendingRecord 5 "0xAbCd" "1" "0xT1" "0xT2"] false = [] ∧
      getUserPendingTxs "0XABCD"
        [buyPendingRecord 5 "0xAbCd" "1" "0xT1" "0xT2"] false = [] := by
  decide

/-- Claim C10: when the underlying database operation fails, `getAll`
returns the empty list, `getPendingTxByHash` returns `null`, `txHashExists`
returns `false` (so the durable duplicate check reports "not present"), and
`updateTxStatusByHash` returns `false` leaving the store as it was. -/
theorem claim10_store_error_fallbacks (h : String) (st : TxStatus)
    (store : List PendingTransaction) :
    getAll store true = [] ∧
      getPendingTxByHash h store true = none ∧
      txHashExists h store true = false ∧
      updateTxStatusByHash h st store true = (store, false) :=
  ⟨rfl, rfl, rfl, rfl⟩

end PepuBridge
